import Mathlib

/-!
The decode / validate / dispatch loop of `kops edit -f` (`RunEdit`).

A shallow embedding of `RunEdit` (`cmd/kops/edit.go`) and of the standard
library routine it splits files with (`bytes.Split`), followed by theorems
about them.

* Bytes are `Fin 256`; a `[]byte` is a list of them.
* The external collaborators of `RunEdit` (the file reader, the codec, the two
  edit handlers, the constants of the API package) are fields of `Env`.
* The handlers mutate external state: the world `σ` is passed explicitly and
  every handler invocation is logged in `St.calls`.
-/

namespace Kops

/-- A Go `byte`. -/
abbrev Byte := Fin 256

/-- A Go `[]byte`. -/
abbrev Bytes := List Byte

/-- The separator `RunEdit` splits on: `[]byte("\n---\n")`. -/
def docSep : Bytes := [10, 45, 45, 45, 10]

/-- Go `bytes.Index(s, sep)`: the index of the first instance of `sep` in `s`,
`none` (Go: `-1`) when there is none. -/
def Index : Bytes → Bytes → Option Nat
  | [], sep => if sep.isPrefixOf [] then some 0 else none
  | x :: xs, sep =>
    if sep.isPrefixOf (x :: xs) then some 0 else (Index xs sep).map (· + 1)

/-- The loop of Go `bytes.Count(s, sep)` for a non-empty `sep`
(`i := Index(s, sep); if i == -1 { return n }; n++; s = s[i+len(sep):]`),
with the number of iterations bounded by `fuel`. -/
def countLoop : Nat → Bytes → Bytes → Nat
  | 0, _, _ => 0
  | fuel + 1, s, sep =>
    match Index s sep with
    | none => 0
    | some i => countLoop fuel (s.drop (i + sep.length)) sep + 1

/-- Go `bytes.Count(s, sep)` for a non-empty `sep`: the number of
non-overlapping instances of `sep` in `s`. Every iteration of the loop drops
at least `len(sep) ≥ 1` bytes, so `len(s)` iterations are enough
(`countLoop_fuel`). -/
def Count (s sep : Bytes) : Nat := countLoop s.length s sep

/-- The loop of Go `genSplit(s, sep, 0, n)` for a non-empty `sep`; the first
argument is `n - 1`, the number of cuts still allowed:
`m := Index(s, sep); if m < 0 { break }; a[i] = s[:m]; s = s[m+len(sep):]`,
and after the loop `a[i] = s`. -/
def genSplit : Nat → Bytes → Bytes → List Bytes
  | 0, s, _ => [s]
  | n + 1, s, sep =>
    match Index s sep with
    | none => [s]
    | some m => s.take m :: genSplit n (s.drop (m + sep.length)) sep

/-- Go `bytes.Split(s, sep)` for a non-empty `sep`:
`genSplit(s, sep, 0, -1)`, where a negative `n` becomes `Count(s, sep) + 1`. -/
def Split (s sep : Bytes) : List Bytes := genSplit (Count s sep) s sep

/-- Go `bytes.Join(blocks, sep)`: the blocks concatenated with `sep` between
consecutive ones. -/
def Join : List Bytes → Bytes → Bytes
  | [], _ => []
  | [b], _ => b
  | b :: b' :: bs, sep => b ++ sep ++ Join (b' :: bs) sep

/-! ## The data `RunEdit` works on -/

/-- An error value produced outside `RunEdit` (by the file reader, the codec or
a handler); `RunEdit` never looks inside it. -/
structure ExtError where
  message : String
  deriving DecidableEq, Repr

/-- Go `schema.GroupVersionKind`. -/
structure GroupVersionKind where
  Group : String
  Version : String
  Kind : String
  deriving DecidableEq, Repr

/-- The fields of `ObjectMeta` that `RunEdit` reads. `Labels` is a Go
`map[string]string`. -/
structure ObjectMeta where
  Name : String
  Labels : List (String × String)
  deriving DecidableEq, Repr

/-- Go map indexing `m.Labels[key]`: the zero value `""` for an absent key. -/
def ObjectMeta.label (m : ObjectMeta) (key : String) : String :=
  (m.Labels.lookup key).getD ""

/-- The object `codec.Decode` hands back, by the cases of the type switch:
`*kopsapi.Federation`, `*kopsapi.Cluster`, `*kopsapi.InstanceGroup`, or an
object of any other registered Go type (named by `goType`). -/
inductive Object where
  | Federation (meta : ObjectMeta)
  | Cluster (meta : ObjectMeta)
  | InstanceGroup (meta : ObjectMeta)
  | other (goType : String)
  deriving DecidableEq, Repr

/-- An operand of a `fmt.Errorf` call in `RunEdit`: a string (`file`,
`kopsapi.LabelClusterName`), an error (`err`), the kind found by the decoder
(`gvk`), or the `*util.Factory` parameter `f`. -/
inductive Arg where
  | str (s : String)
  | err (e : ExtError)
  | gvk (g : GroupVersionKind)
  | factory
  deriving DecidableEq, Repr

/-- The error `fmt.Errorf(format, args...)` builds: the format string and the
operands formatted into it. -/
structure FmtError where
  format : String
  args : List Arg
  deriving DecidableEq, Repr

/-- One handler invocation: `RunEditClusterFromFile(clusterName, section)` or
`RunEditInstanceGroupFromFile(clusterName, groupName, section)`. -/
inductive Call where
  | cluster (clusterName : String) (sec : Bytes)
  | instanceGroup (clusterName groupName : String) (sec : Bytes)
  deriving DecidableEq, Repr

/-- How an execution of `RunEdit` ends: it returns `err` to its caller (`none`
is Go `nil`), or `cmdutil.CheckErr` received the non-nil error `err` and its
fatal handler ended the process (`os.Exit(1)` after printing the error). -/
inductive Outcome where
  | returned (err : Option FmtError)
  | exited (err : ExtError)
  deriving DecidableEq, Repr

/-- Go `EditOptions` (`resource.FilenameOptions` embedded). -/
structure EditOptions where
  Filenames : List String
  deriving DecidableEq, Repr

/-- What `RunEdit` uses and this file does not define, over a world `σ` that
the handlers change.
* `LabelClusterName` is `kopsapi.LabelClusterName`;
  `v1alpha1Group`, `v1alpha1Version` are `v1alpha1.SchemeGroupVersion`;
* `ReadFile` is `vfs.Context.ReadFile`; the input files are taken not to change
  while `RunEdit` runs;
* `Decode section defaults` is `codec.Decode(section, defaults, nil)` for
  `codec = k8sapi.Codecs.UniversalDecoder(kopsapi.SchemeGroupVersion)`;
* the two handlers return their `error` (`none` is `nil`) and the new world. -/
structure Env (σ : Type) where
  LabelClusterName : String
  v1alpha1Group : String
  v1alpha1Version : String
  ReadFile : String → Except ExtError Bytes
  Decode : Bytes → GroupVersionKind → Except ExtError (Object × GroupVersionKind)
  RunEditClusterFromFile : String → Bytes → σ → Option ExtError × σ
  RunEditInstanceGroupFromFile : String → String → Bytes → σ → Option ExtError × σ

/-- The state of an execution: the world and the handler invocations made so
far, oldest first. -/
structure St (σ : Type) where
  world : σ
  calls : List Call
  deriving DecidableEq, Repr

/-- The result of one iteration of a loop of `RunEdit`: go on with the next
iteration, or leave `RunEdit`. -/
inductive Step (σ : Type) where
  | next (st : St σ)
  | halt (out : Outcome) (st : St σ)
  deriving DecidableEq, Repr

/-- The way `RunEdit` ended and the state it ended in. -/
structure Result (σ : Type) where
  out : Outcome
  st : St σ
  deriving DecidableEq, Repr

/-! ## `RunEdit` -/

/-- The statement `cmdutil.CheckErr(handler(...))`: the handler has run (`r` is
its error and the new world) and is logged as `call`; with a `nil` error
`CheckErr` returns and the loop goes on, with a non-nil error it ends the
process. -/
def checkErrCall {σ : Type} (call : Call) (r : Option ExtError × σ) (st : St σ) : Step σ :=
  match r.1 with
  | none => .next ⟨r.2, st.calls ++ [call]⟩
  | some e => .halt (.exited e) ⟨r.2, st.calls ++ [call]⟩

/-- The body of `for _, section := range sections` (edit.go, lines 85-121).
The `glog.V(2).Infof` of the default case only logs and is left out. -/
def editSection {σ : Type} (env : Env σ) (file : String) (sec : Bytes) (st : St σ) : Step σ :=
  let defaults : GroupVersionKind :=
    { Group := env.v1alpha1Group, Version := env.v1alpha1Version, Kind := "" }
  match env.Decode sec defaults with
  | .error err =>
    .halt (.returned (some ⟨"error parsing file %q: %v", [.str file, .err err]⟩)) st
  | .ok (o, gvk) =>
    match o with
    | .Federation _ => .next st
    | .Cluster v =>
      let clusterName := v.Name
      if clusterName = "" then
        .halt (.returned (some
          ⟨"Config file must specify %q label with cluster name to create instanceGroup",
            [.str env.LabelClusterName]⟩)) st
      else
        checkErrCall (.cluster clusterName sec)
          (env.RunEditClusterFromFile clusterName sec st.world) st
    | .InstanceGroup v =>
      let clusterName := v.label env.LabelClusterName
      let groupName := v.Name
      if clusterName = "" then
        .halt (.returned (some
          ⟨"Config file must specify %q label with cluster name to create instanceGroup",
            [.str env.LabelClusterName]⟩)) st
      else if groupName = "" then
        .halt (.returned (some
          ⟨"Config file must specify metadata name to create instanceGroup", []⟩)) st
      else
        checkErrCall (.instanceGroup clusterName groupName sec)
          (env.RunEditInstanceGroupFromFile clusterName groupName sec st.world) st
    | .other _ =>
      .halt (.returned (some ⟨"Unhandled kind %q in %q", [.gvk gvk, .factory]⟩)) st

/-- The loop `for _, section := range sections` (edit.go, lines 84-122). -/
def editSections {σ : Type} (env : Env σ) (file : String) : List Bytes → St σ → Step σ
  | [], st => .next st
  | sec :: rest, st =>
    match editSection env file sec st with
    | .next st' => editSections env file rest st'
    | .halt out st' => .halt out st'

/-- The loop `for _, file := range c.Filenames` and the final `return nil`
(edit.go, lines 76-125). -/
def editFiles {σ : Type} (env : Env σ) : List String → St σ → Result σ
  | [], st => ⟨.returned none, st⟩
  | file :: rest, st =>
    match env.ReadFile file with
    | .error err =>
      ⟨.returned (some ⟨"error reading file %q: %v", [.str file, .err err]⟩), st⟩
    | .ok contents =>
      match editSections env file (Split contents docSep) st with
      | .next st' => editFiles env rest st'
      | .halt out st' => ⟨out, st'⟩

/-- Go `RunEdit(f, cmd, out, c, args)` started in world `w`. Of its parameters
only `c.Filenames` is read (`f` is an operand of one `fmt.Errorf`, see
`Arg.factory`). -/
def RunEdit {σ : Type} (env : Env σ) (c : EditOptions) (w : σ) : Result σ :=
  editFiles env c.Filenames ⟨w, []⟩

/-- What is left of an execution of `RunEdit` when the inner loop stands before
the sections `secs` of `file` and `files` are the files after `file`. -/
def resume {σ : Type} (env : Env σ) (file : String) (secs : List Bytes) (files : List String)
    (st : St σ) : Result σ :=
  match editSections env file secs st with
  | .next st' => editFiles env files st'
  | .halt out st' => ⟨out, st'⟩

/-- The execution `RunEdit env c w` arrives at the section `sec` of `file` in
state `st`, with `post` the sections of `file` after it and `files` the files
after `file`: the files before `file` were processed without leaving `RunEdit`,
`file` was read and split, and so were the sections before `sec`. -/
def Reaches {σ : Type} (env : Env σ) (c : EditOptions) (w : σ) (file : String) (sec : Bytes)
    (post : List Bytes) (files : List String) (st : St σ) : Prop :=
  ∃ (before : List String) (contents : Bytes) (pre : List Bytes) (st₁ : St σ),
    c.Filenames = before ++ file :: files ∧
    editFiles env before ⟨w, []⟩ = ⟨.returned none, st₁⟩ ∧
    env.ReadFile file = .ok contents ∧
    Split contents docSep = pre ++ sec :: post ∧
    editSections env file pre st₁ = .next st

/-- The `defaults` every `codec.Decode` call of `RunEdit` is given. -/
def decodeDefaults {σ : Type} (env : Env σ) : GroupVersionKind :=
  { Group := env.v1alpha1Group, Version := env.v1alpha1Version, Kind := "" }

/-! ## A concrete environment for the examples -/

/-- The text of an ASCII byte string. -/
def textOf (bs : Bytes) : String := String.mk (bs.map fun b => Char.ofNat b.val)

/-- A stand-in for the codec. The first byte of a document tells its type
(`F` Federation, `C` Cluster, `I` InstanceGroup, `P` a Pod, which is a
registered type that is none of the three); a Cluster is followed by its name,
an InstanceGroup by its cluster label, a comma and its name. Like the real
codec it rejects the empty document. -/
def stubDecode (sec : Bytes) (defaults : GroupVersionKind) :
    Except ExtError (Object × GroupVersionKind) :=
  match sec with
  | [] => .error ⟨"Object 'Kind' is missing"⟩
  | tag :: body =>
    if tag = 70 then
      .ok (.Federation ⟨textOf body, []⟩, { defaults with Kind := "Federation" })
    else if tag = 67 then
      .ok (.Cluster ⟨textOf body, []⟩, { defaults with Kind := "Cluster" })
    else if tag = 73 then
      let label := body.takeWhile (· ≠ 44)
      let name := (body.dropWhile (· ≠ 44)).drop 1
      .ok (.InstanceGroup
            ⟨textOf name, if label = [] then [] else [("kops.k8s.io/cluster", textOf label)]⟩,
          { defaults with Kind := "InstanceGroup" })
    else if tag = 80 then
      .ok (.other "*api.Pod", ⟨"", "v1", "Pod"⟩)
    else .error ⟨"couldn't get version/kind"⟩

/-- The document `Ceast`: a Cluster named `east`. -/
def docClusterEast : Bytes := [67, 101, 97, 115, 116]

/-- The document `Ieast,`: an InstanceGroup labelled with cluster `east`, with
an empty name. -/
def docGroupNoName : Bytes := [73, 101, 97, 115, 116, 44]

/-- The document `I,nodes`: an InstanceGroup named `nodes` without a cluster
label. -/
def docGroupNoLabel : Bytes := [73, 44, 110, 111, 100, 101, 115]

/-- The document `Ieast,nodes`: an InstanceGroup `nodes` of cluster `east`. -/
def docGroupNodes : Bytes := [73, 101, 97, 115, 116, 44, 110, 111, 100, 101, 115]

/-- A stand-in for the file system. -/
def stubReadFile (file : String) : Except ExtError Bytes :=
  if file = "a.yaml" then .ok (docClusterEast ++ docSep ++ docGroupNoName)
  else if file = "b.yaml" then .ok [70]
  else if file = "empty.yaml" then .ok []
  else if file = "c.yaml" then .ok [67]
  else if file = "i.yaml" then .ok docGroupNoLabel
  else if file = "p.yaml" then .ok [80]
  else if file = "east.yaml" then .ok docClusterEast
  else if file = "nodes.yaml" then .ok docGroupNodes
  else .error ⟨"no such file"⟩

/-- An environment whose handlers always succeed; the world counts the updates
written. -/
def stubEnv : Env Nat where
  LabelClusterName := "kops.k8s.io/cluster"
  v1alpha1Group := "kops"
  v1alpha1Version := "v1alpha1"
  ReadFile := stubReadFile
  Decode := stubDecode
  RunEditClusterFromFile := fun _ _ w => (none, w + 1)
  RunEditInstanceGroupFromFile := fun _ _ _ w => (none, w + 1)

/-- The environment `stubEnv` with handlers that always fail. -/
def readOnlyEnv : Env Nat :=
  { stubEnv with
    RunEditClusterFromFile := fun _ _ w => (some ⟨"state store is read-only"⟩, w)
    RunEditInstanceGroupFromFile := fun _ _ _ w => (some ⟨"state store is read-only"⟩, w) }

/-! ## The order of processing, as the specification words it -/

section Loops

variable {σ : Type} (env : Env σ)

theorem checkErrCall_halt_ne (call : Call) (r : Option ExtError × σ) (st st' : St σ)
    (out : Outcome) (h : checkErrCall call r st = .halt out st') : out ≠ .returned none := by
  unfold checkErrCall at h
  split at h
  · cases h
  · cases h
    simp

theorem editSection_halt_ne (file : String) (sec : Bytes) (st st' : St σ) (out : Outcome)
    (h : editSection env file sec st = .halt out st') : out ≠ .returned none := by
  simp only [editSection] at h
  split at h
  · cases h
    simp
  · split at h
    · cases h
    · split at h
      · cases h
        simp
      · exact checkErrCall_halt_ne _ _ _ _ _ h
    · split at h
      · cases h
        simp
      · split at h
        · cases h
          simp
        · exact checkErrCall_halt_ne _ _ _ _ _ h
    · cases h
      simp

theorem editSections_halt_ne (file : String) (secs : List Bytes) (st st' : St σ)
    (out : Outcome) (h : editSections env file secs st = .halt out st') :
    out ≠ .returned none := by
  induction secs generalizing st with
  | nil => cases h
  | cons sec rest ih =>
    cases hs : editSection env file sec st with
    | next st₂ =>
      have h' : editSections env file rest st₂ = .halt out st' := by
        simpa [editSections, hs] using h
      exact ih st₂ h'
    | halt out₂ st₂ =>
      have h' : out₂ = out ∧ st₂ = st' := by simpa [editSections, hs] using h
      rw [← h'.1]
      exact editSection_halt_ne env file sec st st₂ out₂ hs

theorem editSections_append (file : String) (pre post : List Bytes) (st st' : St σ)
    (h : editSections env file pre st = .next st') :
    editSections env file (pre ++ post) st = editSections env file post st' := by
  induction pre generalizing st with
  | nil =>
    cases h
    rfl
  | cons sec rest ih =>
    cases hs : editSection env file sec st with
    | next st₂ =>
      have h' : editSections env file rest st₂ = .next st' := by
        simpa [editSections, hs] using h
      simpa [editSections, hs] using ih st₂ h'
    | halt out₂ st₂ =>
      simp [editSections, hs] at h

theorem editFiles_cons_ok (file : String) (files : List String) (contents : Bytes) (st : St σ)
    (h : env.ReadFile file = .ok contents) :
    editFiles env (file :: files) st = resume env file (Split contents docSep) files st := by
  simp only [editFiles, resume, h]

theorem editFiles_append (before files : List String) (st st' : St σ)
    (h : editFiles env before st = ⟨.returned none, st'⟩) :
    editFiles env (before ++ files) st = editFiles env files st' := by
  induction before generalizing st with
  | nil =>
    cases h
    rfl
  | cons file rest ih =>
    cases hr : env.ReadFile file with
    | error err =>
      simp [editFiles, hr] at h
    | ok contents =>
      cases hs : editSections env file (Split contents docSep) st with
      | next st₂ =>
        have h' : editFiles env rest st₂ = ⟨.returned none, st'⟩ := by
          simpa [editFiles, hr, hs] using h
        simpa [editFiles, hr, hs] using ih st₂ h'
      | halt out₂ st₂ =>
        have hne := editSections_halt_ne env file _ st st₂ out₂ hs
        have h' : out₂ = .returned none ∧ st₂ = st' := by
          simpa [editFiles, hr, hs] using h
        exact absurd h'.1 hne

theorem resume_append (file : String) (pre post : List Bytes) (files : List String)
    (st st' : St σ) (h : editSections env file pre st = .next st') :
    resume env file (pre ++ post) files st = resume env file post files st' := by
  simp only [resume, editSections_append env file pre post st st' h]

/-- An execution that reaches a section continues from there. -/
theorem RunEdit_of_reaches (c : EditOptions) (w : σ) (file : String) (sec : Bytes)
    (post : List Bytes) (files : List String) (st : St σ)
    (h : Reaches env c w file sec post files st) :
    RunEdit env c w = resume env file (sec :: post) files st := by
  obtain ⟨before, contents, pre, st₁, hfiles, hbefore, hread, hsplit, hpre⟩ := h
  unfold RunEdit
  rw [hfiles, editFiles_append env before (file :: files) _ st₁ hbefore,
    editFiles_cons_ok env file files contents st₁ hread, hsplit,
    resume_append env file pre (sec :: post) files st₁ st hpre]

theorem resume_cons_halt (file : String) (sec : Bytes) (post : List Bytes)
    (files : List String) (st st' : St σ) (out : Outcome)
    (h : editSection env file sec st = .halt out st') :
    resume env file (sec :: post) files st = ⟨out, st'⟩ := by
  simp only [resume, editSections, h]

theorem resume_cons_next (file : String) (sec : Bytes) (post : List Bytes)
    (files : List String) (st st' : St σ)
    (h : editSection env file sec st = .next st') :
    resume env file (sec :: post) files st = resume env file post files st' := by
  simp only [resume, editSections, h]

end Loops

/-! ## Single documents -/

/-- C1. A document that decodes to a Cluster with a non-empty name: the cluster
handler is called once, with that name and the section exactly as the split
produced it, and nothing else is called for the document; after it the
execution goes on with the next document (handler returned nil) or ends in
`CheckErr` (handler returned an error). -/
theorem C1_cluster_dispatch {σ : Type} (env : Env σ) (c : EditOptions) (w : σ) (file : String)
    (sec : Bytes) (post : List Bytes) (files : List String) (st : St σ) (v : ObjectMeta)
    (gvk : GroupVersionKind)
    (hreach : Reaches env c w file sec post files st)
    (hdec : env.Decode sec (decodeDefaults env) = .ok (.Cluster v, gvk))
    (hname : v.Name ≠ "") :
    RunEdit env c w =
      match env.RunEditClusterFromFile v.Name sec st.world with
      | (none, w') => resume env file post files ⟨w', st.calls ++ [.cluster v.Name sec]⟩
      | (some e, w') => ⟨.exited e, ⟨w', st.calls ++ [.cluster v.Name sec]⟩⟩ := by
  rw [RunEdit_of_reaches env c w file sec post files st hreach]
  have hd : env.Decode sec ⟨env.v1alpha1Group, env.v1alpha1Version, ""⟩
      = .ok (.Cluster v, gvk) := hdec
  rcases hr : env.RunEditClusterFromFile v.Name sec st.world with ⟨_ | e, w'⟩
  · have hs : editSection env file sec st
        = .next ⟨w', st.calls ++ [.cluster v.Name sec]⟩ := by
      simp [editSection, hd, hname, checkErrCall, hr]
    simp only [resume_cons_next env file sec post files st _ hs]
  · have hs : editSection env file sec st
        = .halt (.exited e) ⟨w', st.calls ++ [.cluster v.Name sec]⟩ := by
      simp [editSection, hd, hname, checkErrCall, hr]
    simp only [resume_cons_halt env file sec post files st _ _ hs]

/-- In `stubEnv`, after `b.yaml` the execution on `b.yaml, a.yaml` stands before
the first document of `a.yaml` with nothing called yet. -/
theorem stub_reaches_east :
    Reaches stubEnv ⟨["b.yaml", "a.yaml"]⟩ 0 "a.yaml" docClusterEast [docGroupNoName] []
      ⟨0, []⟩ :=
  ⟨["b.yaml"], docClusterEast ++ docSep ++ docGroupNoName, [], ⟨0, []⟩,
    rfl, by decide, rfl, by decide, rfl⟩

/-- C1 at a concrete input: the Cluster `east`, first document of `a.yaml`, in
the run on `b.yaml, a.yaml`. -/
theorem C1_cluster_dispatch_witness :
    Reaches stubEnv ⟨["b.yaml", "a.yaml"]⟩ 0 "a.yaml" docClusterEast [docGroupNoName] []
        ⟨0, []⟩ ∧
      stubEnv.Decode docClusterEast (decodeDefaults stubEnv)
        = .ok (.Cluster ⟨"east", []⟩, ⟨"kops", "v1alpha1", "Cluster"⟩) ∧
      RunEdit stubEnv ⟨["b.yaml", "a.yaml"]⟩ 0 =
        match stubEnv.RunEditClusterFromFile "east" docClusterEast 0 with
        | (none, w') =>
          resume stubEnv "a.yaml" [docGroupNoName] [] ⟨w', [] ++ [.cluster "east" docClusterEast]⟩
        | (some e, w') => ⟨.exited e, ⟨w', [] ++ [.cluster "east" docClusterEast]⟩⟩ :=
  ⟨stub_reaches_east, rfl,
    C1_cluster_dispatch stubEnv ⟨["b.yaml", "a.yaml"]⟩ 0 "a.yaml" docClusterEast
      [docGroupNoName] [] ⟨0, []⟩ ⟨"east", []⟩ ⟨"kops", "v1alpha1", "Cluster"⟩
      stub_reaches_east rfl (by decide)⟩

/-- C2. A document that decodes to an InstanceGroup whose cluster-name label is
absent or empty: `RunEdit` returns the error that names the label key, whatever
the group name is, in the state in which it arrived at the document (no handler
is called for it). -/
theorem C2_group_label_checked_first {σ : Type} (env : Env σ) (c : EditOptions) (w : σ)
    (file : String) (sec : Bytes) (post : List Bytes) (files : List String) (st : St σ)
    (v : ObjectMeta) (gvk : GroupVersionKind)
    (hreach : Reaches env c w file sec post files st)
    (hdec : env.Decode sec (decodeDefaults env) = .ok (.InstanceGroup v, gvk))
    (hlabel : v.Labels.lookup env.LabelClusterName = none ∨
      v.Labels.lookup env.LabelClusterName = some "") :
    RunEdit env c w =
      ⟨.returned (some
        ⟨"Config file must specify %q label with cluster name to create instanceGroup",
          [.str env.LabelClusterName]⟩), st⟩ := by
  rw [RunEdit_of_reaches env c w file sec post files st hreach]
  have hd : env.Decode sec ⟨env.v1alpha1Group, env.v1alpha1Version, ""⟩
      = .ok (.InstanceGroup v, gvk) := hdec
  have hl : v.label env.LabelClusterName = "" := by
    rcases hlabel with h | h <;> simp [ObjectMeta.label, h]
  apply resume_cons_halt
  simp [editSection, hd, hl]

/-- In `stubEnv`, the execution on `east.yaml, i.yaml` stands before the
document of `i.yaml` after one handler call. -/
theorem stub_reaches_noLabel :
    Reaches stubEnv ⟨["east.yaml", "i.yaml"]⟩ 0 "i.yaml" docGroupNoLabel [] []
      ⟨1, [.cluster "east" docClusterEast]⟩ :=
  ⟨["east.yaml"], docGroupNoLabel, [], ⟨1, [.cluster "east" docClusterEast]⟩,
    rfl, by decide, rfl, by decide, rfl⟩

/-- C2 at a concrete input: the InstanceGroup `nodes` without cluster label,
in the run on `east.yaml, i.yaml`. -/
theorem C2_group_label_checked_first_witness :
    Reaches stubEnv ⟨["east.yaml", "i.yaml"]⟩ 0 "i.yaml" docGroupNoLabel [] []
        ⟨1, [.cluster "east" docClusterEast]⟩ ∧
      stubEnv.Decode docGroupNoLabel (decodeDefaults stubEnv)
        = .ok (.InstanceGroup ⟨"nodes", []⟩, ⟨"kops", "v1alpha1", "InstanceGroup"⟩) ∧
      RunEdit stubEnv ⟨["east.yaml", "i.yaml"]⟩ 0 =
        ⟨.returned (some
          ⟨"Config file must specify %q label with cluster name to create instanceGroup",
            [.str "kops.k8s.io/cluster"]⟩), ⟨1, [.cluster "east" docClusterEast]⟩⟩ :=
  ⟨stub_reaches_noLabel, rfl,
    C2_group_label_checked_first stubEnv ⟨["east.yaml", "i.yaml"]⟩ 0 "i.yaml" docGroupNoLabel
      [] [] ⟨1, [.cluster "east" docClusterEast]⟩ ⟨"nodes", []⟩
      ⟨"kops", "v1alpha1", "InstanceGroup"⟩ stub_reaches_noLabel rfl (Or.inl rfl)⟩

/-- C6. A document whose decoded object is not a Federation, a Cluster or an
InstanceGroup: `RunEdit` returns the unhandled-kind error, whose first operand
is the kind the decoder found, in the state in which it arrived at the document
(no handler is called for it or for anything after it). -/
theorem C6_unhandled_kind {σ : Type} (env : Env σ) (c : EditOptions) (w : σ) (file : String)
    (sec : Bytes) (post : List Bytes) (files : List String) (st : St σ) (o : Object)
    (gvk : GroupVersionKind)
    (hreach : Reaches env c w file sec post files st)
    (hdec : env.Decode sec (decodeDefaults env) = .ok (o, gvk))
    (hF : ∀ m, o ≠ .Federation m) (hC : ∀ m, o ≠ .Cluster m)
    (hI : ∀ m, o ≠ .InstanceGroup m) :
    RunEdit env c w =
      ⟨.returned (some ⟨"Unhandled kind %q in %q", [.gvk gvk, .factory]⟩), st⟩ := by
  rw [RunEdit_of_reaches env c w file sec post files st hreach]
  have hd : env.Decode sec ⟨env.v1alpha1Group, env.v1alpha1Version, ""⟩ = .ok (o, gvk) := hdec
  apply resume_cons_halt
  cases o with
  | Federation m => exact absurd rfl (hF m)
  | Cluster m => exact absurd rfl (hC m)
  | InstanceGroup m => exact absurd rfl (hI m)
  | other t => simp [editSection, hd]

/-- In `stubEnv`, the execution on `east.yaml, p.yaml, nodes.yaml` stands
before the document of `p.yaml` after one handler call. -/
theorem stub_reaches_pod :
    Reaches stubEnv ⟨["east.yaml", "p.yaml", "nodes.yaml"]⟩ 0 "p.yaml" [80] [] ["nodes.yaml"]
      ⟨1, [.cluster "east" docClusterEast]⟩ :=
  ⟨["east.yaml"], [80], [], ⟨1, [.cluster "east" docClusterEast]⟩,
    rfl, by decide, rfl, by decide, rfl⟩

/-- C6 at a concrete input: the Pod of `p.yaml`, in the run on
`east.yaml, p.yaml, nodes.yaml`. -/
theorem C6_unhandled_kind_witness :
    Reaches stubEnv ⟨["east.yaml", "p.yaml", "nodes.yaml"]⟩ 0 "p.yaml" [80] [] ["nodes.yaml"]
        ⟨1, [.cluster "east" docClusterEast]⟩ ∧
      stubEnv.Decode [80] (decodeDefaults stubEnv) = .ok (.other "*api.Pod", ⟨"", "v1", "Pod"⟩) ∧
      RunEdit stubEnv ⟨["east.yaml", "p.yaml", "nodes.yaml"]⟩ 0 =
        ⟨.returned (some ⟨"Unhandled kind %q in %q", [.gvk ⟨"", "v1", "Pod"⟩, .factory]⟩),
          ⟨1, [.cluster "east" docClusterEast]⟩⟩ :=
  ⟨stub_reaches_pod, rfl,
    C6_unhandled_kind stubEnv ⟨["east.yaml", "p.yaml", "nodes.yaml"]⟩ 0 "p.yaml" [80] []
      ["nodes.yaml"] ⟨1, [.cluster "east" docClusterEast]⟩ (.other "*api.Pod") ⟨"", "v1", "Pod"⟩
      stub_reaches_pod rfl (fun _ h => by cases h) (fun _ h => by cases h)
      (fun _ h => by cases h)⟩

/-- C7, as stated, fails: `b.yaml` holds one document, a Federation, and the
execution on it ends with no handler invoked and the world untouched; the
Federation case of the type switch is empty. -/
theorem C7_federation_handler_counterexample :
    stubEnv.ReadFile "b.yaml" = .ok [70] ∧ Split [70] docSep = [[70]] ∧
      stubEnv.Decode [70] (decodeDefaults stubEnv)
        = .ok (.Federation ⟨"", []⟩, ⟨"kops", "v1alpha1", "Federation"⟩) ∧
      (RunEdit stubEnv ⟨["b.yaml"]⟩ 0).st = ⟨0, []⟩ ∧
      ∀ call, call ∉ (RunEdit stubEnv ⟨["b.yaml"]⟩ 0).st.calls := by
  refine ⟨rfl, by decide, rfl, by decide, ?_⟩
  intro call h
  have h2 : (RunEdit stubEnv ⟨["b.yaml"]⟩ 0).st.calls = [] := by decide
  rw [h2] at h
  cases h

/-- C7, amended. A run on one file that holds one document, which decodes to a
Federation: the document is accepted without any identity check, no handler is
invoked and the world is left as it was, and `RunEdit` returns nil. -/
theorem C7_federation_accepted {σ : Type} (env : Env σ) (w : σ) (file : String)
    (contents sec : Bytes) (m : ObjectMeta) (gvk : GroupVersionKind)
    (hread : env.ReadFile file = .ok contents)
    (hsplit : Split contents docSep = [sec])
    (hdec : env.Decode sec (decodeDefaults env) = .ok (.Federation m, gvk)) :
    RunEdit env ⟨[file]⟩ w = ⟨.returned none, ⟨w, []⟩⟩ := by
  have hd : env.Decode sec ⟨env.v1alpha1Group, env.v1alpha1Version, ""⟩
      = .ok (.Federation m, gvk) := hdec
  simp [RunEdit, editFiles, hread, hsplit, editSections, editSection, hd]

/-- C7, amended, at a concrete input: the run on `b.yaml`. -/
theorem C7_federation_accepted_witness :
    stubEnv.ReadFile "b.yaml" = .ok [70] ∧ Split [70] docSep = [[70]] ∧
      RunEdit stubEnv ⟨["b.yaml"]⟩ 0 = ⟨.returned none, ⟨0, []⟩⟩ :=
  ⟨rfl, by decide,
    C7_federation_accepted stubEnv 0 "b.yaml" [70] [70] ⟨"", []⟩
      ⟨"kops", "v1alpha1", "Federation"⟩ rfl (by decide) rfl⟩

/-- C10, the code at the failing input. `c.yaml` holds one document, a Cluster
with an empty name. The cluster handler is not called, but the error returned
is the one of an InstanceGroup without cluster label (`i.yaml`): it names the
label key `kops.k8s.io/cluster` and speaks of creating an instanceGroup, not of
the name of the Cluster. -/
theorem C10_cluster_empty_name_error :
    stubEnv.Decode [67] (decodeDefaults stubEnv)
        = .ok (.Cluster ⟨"", []⟩, ⟨"kops", "v1alpha1", "Cluster"⟩) ∧
      RunEdit stubEnv ⟨["c.yaml"]⟩ 0 =
        ⟨.returned (some
          ⟨"Config file must specify %q label with cluster name to create instanceGroup",
            [.str "kops.k8s.io/cluster"]⟩), ⟨0, []⟩⟩ ∧
      (RunEdit stubEnv ⟨["c.yaml"]⟩ 0).out = (RunEdit stubEnv ⟨["i.yaml"]⟩ 0).out :=
  ⟨rfl, by decide, by decide⟩

/-- C4, as stated, fails: `empty.yaml` is empty, the split of an empty content
is one empty section, the codec rejects it, and `RunEdit` returns the parse
error. -/
theorem C4_empty_file_counterexample :
    stubEnv.ReadFile "empty.yaml" = .ok [] ∧ Split [] docSep = [[]] ∧
      RunEdit stubEnv ⟨["empty.yaml"]⟩ 0 =
        ⟨.returned (some ⟨"error parsing file %q: %v",
          [.str "empty.yaml", .err ⟨"Object 'Kind' is missing"⟩]⟩), ⟨0, []⟩⟩ :=
  ⟨rfl, by decide, by decide⟩

/-- C4, amended. An input file whose content is empty is split into one empty
section, which is given to the decoder; when the decoder rejects it, `RunEdit`
returns the parse error for that file, in the state in which it came to the
file: no handler is called for it. -/
theorem C4_empty_file_parse_error {σ : Type} (env : Env σ) (c : EditOptions) (w : σ)
    (before : List String) (file : String) (files : List String) (st : St σ) (err : ExtError)
    (hfiles : c.Filenames = before ++ file :: files)
    (hbefore : editFiles env before ⟨w, []⟩ = ⟨.returned none, st⟩)
    (hread : env.ReadFile file = .ok [])
    (hdec : env.Decode [] (decodeDefaults env) = .error err) :
    Split [] docSep = [[]] ∧
      RunEdit env c w =
        ⟨.returned (some ⟨"error parsing file %q: %v", [.str file, .err err]⟩), st⟩ := by
  refine ⟨by decide, ?_⟩
  have hd : env.Decode [] ⟨env.v1alpha1Group, env.v1alpha1Version, ""⟩ = .error err := hdec
  have hsplit : Split [] docSep = [[]] := by decide
  unfold RunEdit
  rw [hfiles, editFiles_append env before (file :: files) _ st hbefore,
    editFiles_cons_ok env file files [] st hread, hsplit]
  apply resume_cons_halt
  simp [editSection, hd]

/-- C4, amended, at a concrete input: the empty file `empty.yaml` in the run on
`east.yaml, empty.yaml, nodes.yaml`. -/
theorem C4_empty_file_parse_error_witness :
    stubEnv.ReadFile "empty.yaml" = .ok [] ∧
      (Split [] docSep = [[]] ∧
        RunEdit stubEnv ⟨["east.yaml", "empty.yaml", "nodes.yaml"]⟩ 0 =
          ⟨.returned (some ⟨"error parsing file %q: %v",
            [.str "empty.yaml", .err ⟨"Object 'Kind' is missing"⟩]⟩),
            ⟨1, [.cluster "east" docClusterEast]⟩⟩) :=
  ⟨rfl,
    C4_empty_file_parse_error stubEnv ⟨["east.yaml", "empty.yaml", "nodes.yaml"]⟩ 0
      ["east.yaml"] "empty.yaml" ["nodes.yaml"] ⟨1, [.cluster "east" docClusterEast]⟩
      ⟨"Object 'Kind' is missing"⟩ rfl (by decide) rfl rfl⟩

/-- C8, as stated, fails: in `readOnlyEnv` the cluster handler returns an error
for the document of `east.yaml`; the execution ends in `CheckErr` with that
error, and `RunEdit` returns nothing to its caller. -/
theorem C8_handler_error_counterexample :
    readOnlyEnv.RunEditClusterFromFile "east" docClusterEast 0
        = (some ⟨"state store is read-only"⟩, 0) ∧
      RunEdit readOnlyEnv ⟨["east.yaml"]⟩ 0 =
        ⟨.exited ⟨"state store is read-only"⟩, ⟨0, [.cluster "east" docClusterEast]⟩⟩ ∧
      ∀ r, (RunEdit readOnlyEnv ⟨["east.yaml"]⟩ 0).out ≠ .returned r := by
  refine ⟨rfl, by decide, ?_⟩
  intro r h
  have h2 : (RunEdit readOnlyEnv ⟨["east.yaml"]⟩ 0).out
      = .exited ⟨"state store is read-only"⟩ := by decide
  rw [h2] at h
  cases h

/-- C8, amended. When the cluster handler or the instance-group handler returns
an error for a document, the run halts there: the handler has been called once
for the document, its error is handed unchanged to `cmdutil.CheckErr`, which
ends the process, and nothing after the document is processed. `RunEdit` does
not return to its caller. -/
theorem C8_handler_error_exits {σ : Type} (env : Env σ) (c : EditOptions) (w : σ)
    (file : String) (sec : Bytes) (post : List Bytes) (files : List String) (st : St σ)
    (call : Call) (r : Option ExtError × σ) (e : ExtError)
    (hreach : Reaches env c w file sec post files st)
    (hcall :
      (∃ v gvk, env.Decode sec (decodeDefaults env) = .ok (.Cluster v, gvk) ∧ v.Name ≠ "" ∧
        call = .cluster v.Name sec ∧
        r = env.RunEditClusterFromFile v.Name sec st.world) ∨
      (∃ v gvk, env.Decode sec (decodeDefaults env) = .ok (.InstanceGroup v, gvk) ∧
        v.label env.LabelClusterName ≠ "" ∧ v.Name ≠ "" ∧
        call = .instanceGroup (v.label env.LabelClusterName) v.Name sec ∧
        r = env.RunEditInstanceGroupFromFile (v.label env.LabelClusterName) v.Name sec
          st.world))
    (hfail : r.1 = some e) :
    RunEdit env c w = ⟨.exited e, ⟨r.2, st.calls ++ [call]⟩⟩ := by
  rw [RunEdit_of_reaches env c w file sec post files st hreach]
  apply resume_cons_halt
  rcases hcall with ⟨v, gvk, hdec, hname, hc, hr⟩ | ⟨v, gvk, hdec, hlabel, hname, hc, hr⟩
  · have hd : env.Decode sec ⟨env.v1alpha1Group, env.v1alpha1Version, ""⟩
        = .ok (.Cluster v, gvk) := hdec
    subst hc
    simp [editSection, hd, hname, checkErrCall, ← hr, hfail]
  · have hd : env.Decode sec ⟨env.v1alpha1Group, env.v1alpha1Version, ""⟩
        = .ok (.InstanceGroup v, gvk) := hdec
    subst hc
    simp [editSection, hd, hname, hlabel, checkErrCall, ← hr, hfail]

/-- In `readOnlyEnv`, the execution on `b.yaml, nodes.yaml, east.yaml` stands
before the document of `nodes.yaml` with nothing called yet. -/
theorem readOnly_reaches_nodes :
    Reaches readOnlyEnv ⟨["b.yaml", "nodes.yaml", "east.yaml"]⟩ 0 "nodes.yaml" docGroupNodes
      [] ["east.yaml"] ⟨0, []⟩ :=
  ⟨["b.yaml"], docGroupNodes, [], ⟨0, []⟩, rfl, by decide, rfl, by decide, rfl⟩

/-- C8, amended, at a concrete input: the InstanceGroup `nodes` of
`nodes.yaml`, in the run on `b.yaml, nodes.yaml, east.yaml` with failing
handlers. -/
theorem C8_handler_error_exits_witness :
    Reaches readOnlyEnv ⟨["b.yaml", "nodes.yaml", "east.yaml"]⟩ 0 "nodes.yaml" docGroupNodes
        [] ["east.yaml"] ⟨0, []⟩ ∧
      RunEdit readOnlyEnv ⟨["b.yaml", "nodes.yaml", "east.yaml"]⟩ 0 =
        ⟨.exited ⟨"state store is read-only"⟩,
          ⟨0, [] ++ [.instanceGroup "east" "nodes" docGroupNodes]⟩⟩ :=
  ⟨readOnly_reaches_nodes,
    C8_handler_error_exits readOnlyEnv ⟨["b.yaml", "nodes.yaml", "east.yaml"]⟩ 0 "nodes.yaml"
      docGroupNodes [] ["east.yaml"] ⟨0, []⟩ (.instanceGroup "east" "nodes" docGroupNodes)
      (some ⟨"state store is read-only"⟩, 0) ⟨"state store is read-only"⟩
      readOnly_reaches_nodes
      (Or.inr ⟨⟨"nodes", [("kops.k8s.io/cluster", "east")]⟩,
        ⟨"kops", "v1alpha1", "InstanceGroup"⟩, rfl, by decide, by decide, rfl, rfl⟩)
      rfl⟩

/-! ## Which errors name the file -/

theorem Index_bound (sep s : Bytes) (i : Nat) (h : Index s sep = some i) :
    i + sep.length ≤ s.length := by
  induction s generalizing i with
  | nil =>
    unfold Index at h
    split at h
    · rename_i hp
      have hp' : sep <+: [] := List.isPrefixOf_iff_prefix.mp hp
      have hnil : sep = [] := List.prefix_nil.mp hp'
      cases h
      simp [hnil]
    · cases h
  | cons x xs ih =>
    unfold Index at h
    split at h
    · rename_i hp
      have hp' : sep <+: x :: xs := List.isPrefixOf_iff_prefix.mp hp
      cases h
      simpa using hp'.length_le
    · cases hj : Index xs sep with
      | none => simp [hj] at h
      | some j =>
        have hi : j + 1 = i := by simpa [hj] using h
        have := ih j hj
        simp only [List.length_cons]
        omega

theorem Index_eq_none (sep s : Bytes) (h : ¬ sep <:+: s) : Index s sep = none := by
  induction s with
  | nil =>
    unfold Index
    split
    · rename_i hp
      exact absurd (List.isPrefixOf_iff_prefix.mp hp).isInfix h
    · rfl
  | cons x xs ih =>
    unfold Index
    split
    · rename_i hp
      exact absurd (List.isPrefixOf_iff_prefix.mp hp).isInfix h
    · have hxs : ¬ sep <:+: xs := fun hin => h (List.infix_cons hin)
      simp [ih hxs]

theorem countLoop_fuel (sep : Bytes) (hsep : sep ≠ []) (f g : Nat) (s : Bytes)
    (hf : s.length ≤ f) (hg : s.length ≤ g) : countLoop f s sep = countLoop g s sep := by
  have hlen : 0 < sep.length := List.length_pos.mpr hsep
  induction f generalizing g s with
  | zero =>
    have hs : s = [] := List.length_eq_zero.mp (Nat.le_zero.mp hf)
    subst hs
    cases g with
    | zero => rfl
    | succ g =>
      have hnone : Index [] sep = none := by
        cases hi : Index [] sep with
        | none => rfl
        | some i =>
          have hb := Index_bound sep [] i hi
          simp only [List.length_nil] at hb
          omega
      simp [countLoop, hnone]
  | succ f ih =>
    cases g with
    | zero =>
      have hs : s = [] := List.length_eq_zero.mp (Nat.le_zero.mp hg)
      subst hs
      have hnone : Index [] sep = none := by
        cases hi : Index [] sep with
        | none => rfl
        | some i =>
          have hb := Index_bound sep [] i hi
          simp only [List.length_nil] at hb
          omega
      simp [countLoop, hnone]
    | succ g =>
      cases hi : Index s sep with
      | none => simp [countLoop, hi]
      | some i =>
        have hb := Index_bound sep s i hi
        have hd : (s.drop (i + sep.length)).length ≤ f := by
          simp only [List.length_drop]
          omega
        have hd' : (s.drop (i + sep.length)).length ≤ g := by
          simp only [List.length_drop]
          omega
        simp [countLoop, hi, ih g (s.drop (i + sep.length)) hd hd']

theorem Split_of_not_infix (sep s : Bytes) (h : ¬ sep <:+: s) : Split s sep = [s] := by
  have hnone := Index_eq_none sep s h
  unfold Split Count
  cases hl : s.length with
  | zero => simp [countLoop, genSplit]
  | succ n => simp [countLoop, hnone, genSplit]

theorem Split_block (sep b rest : Bytes) (hsep : sep ≠ [])
    (h : Index (b ++ sep ++ rest) sep = some b.length) :
    Split (b ++ sep ++ rest) sep = b :: Split rest sep := by
  have hlen : 0 < sep.length := List.length_pos.mpr hsep
  have hdrop : (b ++ sep ++ rest).drop (b.length + sep.length) = rest := by
    have : b.length + sep.length = (b ++ sep).length := by simp
    rw [this, List.drop_left]
  have htake : (b ++ sep ++ rest).take b.length = b := by
    rw [List.append_assoc, List.take_left]
  have hcount : Count (b ++ sep ++ rest) sep = Count rest sep + 1 := by
    unfold Count
    cases hl : (b ++ sep ++ rest).length with
    | zero =>
      simp at hl
      exact absurd hl.2.1 hsep
    | succ n =>
      have hn : rest.length ≤ n := by
        simp at hl
        omega
      simp only [countLoop, h, hdrop]
      rw [countLoop_fuel sep hsep n rest.length rest hn (Nat.le_refl _)]
  unfold Split
  rw [hcount]
  simp only [genSplit, h, hdrop, htake]

theorem docSep_prefix_cases (b rest : Bytes) (h : docSep <+: b ++ docSep ++ rest) :
    b = [] ∨ docSep <+: b ∨ b = [10, 45, 45, 45] := by
  rcases b with _ | ⟨x1, _ | ⟨x2, _ | ⟨x3, _ | ⟨x4, _ | ⟨x5, t⟩⟩⟩⟩⟩
  · exact Or.inl rfl
  · simp [docSep, List.cons_prefix_cons] at h
  · simp [docSep, List.cons_prefix_cons] at h
  · simp [docSep, List.cons_prefix_cons] at h
  · right; right
    simp [docSep, List.cons_prefix_cons] at h
    obtain ⟨rfl, rfl, rfl, rfl⟩ := h
    rfl
  · right; left
    simp [docSep, List.cons_prefix_cons] at h
    obtain ⟨rfl, rfl, rfl, rfl, rfl⟩ := h
    simp [docSep, List.cons_prefix_cons]

theorem Index_block_docSep (b rest : Bytes) (h1 : ¬ docSep <:+: b)
    (h2 : ¬ [10, 45, 45, 45] <:+ b) :
    Index (b ++ docSep ++ rest) docSep = some b.length := by
  induction b with
  | nil =>
    simp [Index, docSep]
  | cons x b ih =>
    have hnp : ¬ docSep <+: (x :: b) ++ docSep ++ rest := by
      intro hp
      rcases docSep_prefix_cases (x :: b) rest hp with h | h | h
      · cases h
      · exact h1 h.isInfix
      · exact h2 (h ▸ List.suffix_refl _)
    have hnp' : docSep.isPrefixOf (x :: (b ++ docSep ++ rest)) = false := by
      cases hb : docSep.isPrefixOf (x :: (b ++ docSep ++ rest)) with
      | false => rfl
      | true => exact absurd (List.isPrefixOf_iff_prefix.mp hb) hnp
    have h1' : ¬ docSep <:+: b := fun hin => h1 (List.infix_cons hin)
    have h2' : ¬ [10, 45, 45, 45] <:+ b := fun hs => h2 (List.suffix_cons_iff.mpr (Or.inr hs))
    have hcons : (x :: b) ++ docSep ++ rest = x :: (b ++ docSep ++ rest) := rfl
    rw [hcons]
    simp only [Index, hnp', Bool.false_eq_true, if_false, ih h1' h2', Option.map_some',
      List.length_cons]

/-- C5, as stated, fails: neither `a\n---` nor `b` contains the separator, yet
the join `a\n---\n---\nb` is split into `a` and `---\nb`: the first instance
of the separator in the join begins inside the first block. -/
theorem C5_split_join_counterexample :
    (∀ b ∈ [[97, 10, 45, 45, 45], [98]], ¬ docSep <:+: b) ∧
      Split (Join [[97, 10, 45, 45, 45], [98]] docSep) docSep = [[97], [45, 45, 45, 10, 98]] ∧
      Split (Join [[97, 10, 45, 45, 45], [98]] docSep) docSep ≠ [[97, 10, 45, 45, 45], [98]] := by
  decide

/-- C5, amended. For every non-empty list of blocks none of which contains the
separator and none of which, the last apart, ends in a newline and three
dashes (the separator without its final newline): joining the blocks with the
separator and splitting the result the way `RunEdit` does yields exactly the
original blocks, in order, with no byte lost. -/
theorem C5_split_join_roundtrip (blocks : List Bytes) (hne : blocks ≠ [])
    (hsep : ∀ b ∈ blocks, ¬ docSep <:+: b)
    (hend : ∀ b ∈ blocks.dropLast, ¬ [10, 45, 45, 45] <:+ b) :
    Split (Join blocks docSep) docSep = blocks := by
  induction blocks with
  | nil => exact absurd rfl hne
  | cons b tl ih =>
    cases tl with
    | nil =>
      simp only [Join]
      exact Split_of_not_infix docSep b (hsep b (List.mem_cons_self _ _))
    | cons b' bs =>
      have hb1 : ¬ docSep <:+: b := hsep b (List.mem_cons_self _ _)
      have hb2 : ¬ [10, 45, 45, 45] <:+ b := hend b (by simp [List.dropLast])
      have hidx := Index_block_docSep b (Join (b' :: bs) docSep) hb1 hb2
      have htl := ih (by simp) (fun x hx => hsep x (List.mem_cons_of_mem _ hx))
        (fun x hx => hend x (by
          simp only [List.dropLast_cons₂]
          exact List.mem_cons_of_mem _ hx))
      simp only [Join]
      rw [Split_block docSep b _ (by decide) hidx, htl]

/-- C5, amended, at a concrete input: four blocks, among them an empty one,
one that begins with three dashes and a last one that ends in a newline and
three dashes. -/
theorem C5_split_join_roundtrip_witness :
    Split (Join [[97, 10, 45, 45, 45, 32], [], [45, 45, 45, 10], [98, 10, 45, 45, 45]] docSep)
        docSep
      = [[97, 10, 45, 45, 45, 32], [], [45, 45, 45, 10], [98, 10, 45, 45, 45]] :=
  C5_split_join_roundtrip [[97, 10, 45, 45, 45, 32], [], [45, 45, 45, 10], [98, 10, 45, 45, 45]]
    (by decide) (by decide) (by decide)

end Kops
